import Mathlib

/-!
Verification of the Monte Carlo portfolio simulation engine
(`src/monte_carlo_app.py`, the `if run_simulation:` block, lines 22-70).

The engine is embedded shallowly over exact rational arithmetic:

* the numpy generator `rng = np.random.default_rng(random_seed)` is modelled
  as an infinite stream of raw draws `ω : ℕ → ℚ` together with a position
  counter; `rng.random()` consumes one raw draw, and
  `rng.normal(mean, sd) = mean + sd * z` consumes one raw draw `z`
  (numpy's `Generator.normal(loc, scale)` is the affine image
  `loc + scale * standard_normal()` of one standard-normal variate);
* the per-year body of the nested loops (lines 42-62) becomes `yearStep`,
  the year loop becomes `simYears`, the per-chunk simulation loop becomes
  `simPaths`, and the chunk loop (lines 31-70, `chunk_size = 100`,
  concatenation at the end) becomes `runChunks` / `runSimulation`.
-/

/-- The scalar configuration supplied to the engine (source lines 10-17). -/
structure Config where
  initial_investment : ℚ
  years : ℕ
  simulations : ℕ
  average_return : ℚ
  std_dev : ℚ
  annual_contribution : ℚ
  discount_rate : ℚ
  seed : ℕ
deriving DecidableEq

/-- Generator state: the seed-determined raw draw stream and the position of
the next unconsumed draw (source line 24: `rng = np.random.default_rng(random_seed)`). -/
structure Gen where
  ω : ℕ → ℚ
  pos : ℕ

/-- Consume one raw draw: models `rng.random()` (the uniform used for the
regime coin flip). -/
def Gen.next (g : Gen) : ℚ × Gen :=
  (g.ω g.pos, ⟨g.ω, g.pos + 1⟩)

/-- Consume one raw draw `z` and return `mean + sd * z`: models
`rng.normal(mean, sd)`.  With `sd = 0` this degenerates to `mean`.  Caveat:
numpy's `Generator.normal` additionally validates its scale argument and
raises `ValueError` when `scale < 0`; this model omits that check, so it is
faithful only on runs where `std_dev ≥ 0`, or where no draw is ever consumed
(`years = 0`) — every theorem below stays inside that domain. -/
def Gen.normal (g : Gen) (mean sd : ℚ) : ℚ × Gen :=
  (mean + sd * g.ω g.pos, ⟨g.ω, g.pos + 1⟩)

/-- `chunk_size = 100` (source line 27). -/
def chunk_size : ℕ := 100

/-- The return drawn for a given `year`, given the portfolio row built so far
(values at indices `0 .. year-1`); source lines 43-52.  Year 1 draws
`normal(average_return, std_dev)` unconditionally; later years compare
`portfolio[year-1] > portfolio[year-2]` (strict), flip a uniform coin against
`0.7` inside the chosen branch, and draw the continuation or reversal normal. -/
def pathReturn (cfg : Config) (pRow : List ℚ) (year : ℕ) (g : Gen) : ℚ × Gen :=
  if year = 1 then
    Gen.normal g cfg.average_return cfg.std_dev
  else if pRow.getD (year - 1) 0 > pRow.getD (year - 2) 0 then
    -- Previous year was up: one uniform coin flip, then one normal draw
    if (Gen.next g).1 < 7/10 then
      Gen.normal (Gen.next g).2 cfg.average_return cfg.std_dev
    else Gen.normal (Gen.next g).2 (-cfg.average_return) cfg.std_dev
  else
    -- Previous year was down
    if (Gen.next g).1 < 7/10 then
      Gen.normal (Gen.next g).2 (-cfg.average_return) cfg.std_dev
    else Gen.normal (Gen.next g).2 cfg.average_return cfg.std_dev

/-- The new portfolio value computed in one year step (source line 55):
`(portfolio[year-1] + annual_contribution) * (1 + random_return)`. -/
def stepValue (cfg : Config) (pRow : List ℚ) (year : ℕ) (g : Gen) : ℚ :=
  (pRow.getD (year - 1) 0 + cfg.annual_contribution) *
    (1 + (pathReturn cfg pRow year g).1)

/-- The new NPV entry computed in one year step (source lines 58-62):
at year 1, `initial_investment / (1+discount_rate)^0`; later,
`npv[year-1] + contribution/(1+dr)^year + (value[year]-value[year-1]-contribution)/(1+dr)^year`. -/
def stepNpv (cfg : Config) (pRow nRow : List ℚ) (year : ℕ) (g : Gen) : ℚ :=
  if year = 1 then
    cfg.initial_investment / ((1 + cfg.discount_rate) ^ (0 : ℕ))
  else
    nRow.getD (year - 1) 0
      + cfg.annual_contribution / ((1 + cfg.discount_rate) ^ year)
      + (stepValue cfg pRow year g - pRow.getD (year - 1) 0 - cfg.annual_contribution)
        / ((1 + cfg.discount_rate) ^ year)

/-- One iteration of the inner year loop (source lines 42-62): draw the
return, append the new portfolio value and the new NPV entry, and hand the
advanced generator on. -/
def yearStep (cfg : Config) (pRow nRow : List ℚ) (year : ℕ) (g : Gen) :
    List ℚ × List ℚ × Gen :=
  (pRow ++ [stepValue cfg pRow year g],
   nRow ++ [stepNpv cfg pRow nRow year g],
   (pathReturn cfg pRow year g).2)

/-- The year loop `for year in range(1, years + 1)` (source line 42), run for
`n` more years starting at index `year`, threading the generator. -/
def simYears (cfg : Config) : ℕ → ℕ → List ℚ → List ℚ → Gen → List ℚ × List ℚ × Gen
  | 0, _, pRow, nRow, g => (pRow, nRow, g)
  | n + 1, year, pRow, nRow, g =>
    let s := yearStep cfg pRow nRow year g
    simYears cfg n (year + 1) s.1 s.2.1 s.2.2

/-- One full simulation path: portfolio row initialised to
`[initial_investment]` (line 37), NPV row to `[0]` (line 38, zero-filled
array), then the year loop from year 1 through `years`. -/
def simPath (cfg : Config) (g : Gen) : List ℚ × List ℚ × Gen :=
  simYears cfg cfg.years 1 [cfg.initial_investment] [0] g

/-- The per-chunk simulation loop `for i in range(current_chunk_size)`
(source line 41): `n` consecutive paths, each consuming the shared generator
where the previous one left off. -/
def simPaths (cfg : Config) : ℕ → Gen → List (List ℚ) × List (List ℚ) × Gen
  | 0, g => ([], [], g)
  | n + 1, g =>
    let p := simPath cfg g
    let rest := simPaths cfg n p.2.2
    (p.1 :: rest.1, p.2.1 :: rest.2.1, rest.2.2)

/-- The chunk loop `for chunk_start in range(0, simulations, chunk_size)`
(source lines 31-66) with the final concatenation (lines 69-70), written with
explicit fuel so that the recursion is structural; each round processes
`min chunk_size remaining` paths.  `remaining` itself is always enough fuel
because every round with work left processes at least one path. -/
def runChunksFuel (cfg : Config) : ℕ → ℕ → Gen → List (List ℚ) × List (List ℚ) × Gen
  | 0, _, g => ([], [], g)
  | fuel + 1, remaining, g =>
    if remaining = 0 then ([], [], g)
    else
      let c := min chunk_size remaining
      let chunk := simPaths cfg c g
      let rest := runChunksFuel cfg fuel (remaining - c) chunk.2.2
      (chunk.1 ++ rest.1, chunk.2.1 ++ rest.2.1, rest.2.2)

/-- The chunk loop over all `remaining` simulations. -/
def runChunks (cfg : Config) (remaining : ℕ) (g : Gen) :
    List (List ℚ) × List (List ℚ) × Gen :=
  runChunksFuel cfg remaining remaining g

/-- The whole engine run: `portfolio_values` and `npv_over_time`
(source lines 69-70) as functions of the configuration and the raw draw
stream fixed by the seed. -/
def runSimulation (cfg : Config) (ω : ℕ → ℚ) :
    List (List ℚ) × List (List ℚ) :=
  let r := runChunks cfg cfg.simulations ⟨ω, 0⟩
  (r.1, r.2.1)

/-- The unchunked driver described by the spec (§4.5): run the simulation
loop over all paths directly, with no batching, consuming the shared
generator in strict (simulation, year) order. -/
def runUnchunked (cfg : Config) (ω : ℕ → ℚ) :
    List (List ℚ) × List (List ℚ) :=
  let r := simPaths cfg cfg.simulations ⟨ω, 0⟩
  (r.1, r.2.1)

/-- The engine as run from a seed: the seed picks the raw draw stream
(`seedStream` models the map from `random_seed` to the `default_rng` stream,
source line 24). -/
def runSeeded (seedStream : ℕ → ℕ → ℚ) (cfg : Config) :
    List (List ℚ) × List (List ℚ) :=
  runSimulation cfg (seedStream cfg.seed)

/-- Row `i` of `portfolio_values`. -/
def portfolioRow (cfg : Config) (ω : ℕ → ℚ) (i : ℕ) : List ℚ :=
  (runSimulation cfg ω).1.getD i []

/-- Row `i` of `npv_over_time`. -/
def npvRow (cfg : Config) (ω : ℕ → ℚ) (i : ℕ) : List ℚ :=
  (runSimulation cfg ω).2.getD i []

/-- The state (portfolio row, NPV row, generator) of one path after its first
`k` years, starting from generator state `g0`. -/
def pathState (cfg : Config) (g0 : Gen) (k : ℕ) : List ℚ × List ℚ × Gen :=
  simYears cfg k 1 [cfg.initial_investment] [0] g0

/-- The generator state after the first `i` complete paths starting from `g`. -/
def genAfterPaths (cfg : Config) (g : Gen) : ℕ → Gen
  | 0 => g
  | i + 1 => genAfterPaths cfg (simPath cfg g).2.2 i

/-- The return drawn for year `y` of the path that starts at generator state
`g0`, obtained by replaying the first `y - 1` years. -/
def returnAt (cfg : Config) (g0 : Gen) (y : ℕ) : ℚ :=
  (pathReturn cfg (pathState cfg g0 (y - 1)).1 y (pathState cfg g0 (y - 1)).2.2).1

-- Concrete instances used by the witnesses and the counterexample.

/-- A small valid configuration: the spec §8 scenario
(initial 1000, 2 years, contribution 100, zero return and volatility). -/
def cfgW : Config :=
  { initial_investment := 1000, years := 2, simulations := 1,
    average_return := 0, std_dev := 0, annual_contribution := 100,
    discount_rate := 0, seed := 42 }

/-- A valid configuration whose simulation count is not a multiple of the
chunk size. -/
def cfgW3 : Config :=
  { initial_investment := 1000, years := 1, simulations := 3,
    average_return := 0, std_dev := 0, annual_contribution := 100,
    discount_rate := 0, seed := 42 }

/-- An invalid configuration: `std_dev = -1 < 0` and `years = 0 < 1`. -/
def cfgBad : Config :=
  { initial_investment := 1000, years := 0, simulations := 1,
    average_return := 2/25, std_dev := -1, annual_contribution := 100,
    discount_rate := 1/20, seed := 42 }

/-- The all-zero raw draw stream, used to instantiate witnesses. -/
def ω0 : ℕ → ℚ := fun _ => 0

/-! ### Basic structural lemmas -/

theorem yearStep_fst (cfg : Config) (pRow nRow : List ℚ) (year : ℕ) (g : Gen) :
    (yearStep cfg pRow nRow year g).1 = pRow ++ [stepValue cfg pRow year g] := rfl

theorem yearStep_snd (cfg : Config) (pRow nRow : List ℚ) (year : ℕ) (g : Gen) :
    (yearStep cfg pRow nRow year g).2.1 = nRow ++ [stepNpv cfg pRow nRow year g] := rfl

theorem yearStep_gen (cfg : Config) (pRow nRow : List ℚ) (year : ℕ) (g : Gen) :
    (yearStep cfg pRow nRow year g).2.2 = (pathReturn cfg pRow year g).2 := rfl

theorem simYears_add (cfg : Config) (a : ℕ) :
    ∀ (b year : ℕ) (pRow nRow : List ℚ) (g : Gen),
      simYears cfg (a + b) year pRow nRow g =
        simYears cfg b (year + a)
          (simYears cfg a year pRow nRow g).1
          (simYears cfg a year pRow nRow g).2.1
          (simYears cfg a year pRow nRow g).2.2 := by
  induction a with
  | zero => intro b year p nr g; simp [simYears]
  | succ m ih =>
    intro b year p nr g
    have h1 : m + 1 + b = (m + b) + 1 := by omega
    rw [h1]
    simp only [simYears]
    rw [ih]
    have h2 : year + 1 + m = year + (m + 1) := by omega
    rw [h2]

theorem simYears_len (cfg : Config) (n : ℕ) :
    ∀ (year : ℕ) (pRow nRow : List ℚ) (g : Gen),
      (simYears cfg n year pRow nRow g).1.length = pRow.length + n ∧
      (simYears cfg n year pRow nRow g).2.1.length = nRow.length + n := by
  induction n with
  | zero => intro year p nr g; simp [simYears]
  | succ m ih =>
    intro year p nr g
    simp only [simYears]
    have h := ih (year + 1) (yearStep cfg p nr year g).1
      (yearStep cfg p nr year g).2.1 (yearStep cfg p nr year g).2.2
    rw [h.1, h.2, yearStep_fst, yearStep_snd]
    simp
    omega

theorem simYears_append (cfg : Config) (n : ℕ) :
    ∀ (year : ℕ) (pRow nRow : List ℚ) (g : Gen),
      ∃ tp tn, (simYears cfg n year pRow nRow g).1 = pRow ++ tp ∧
               (simYears cfg n year pRow nRow g).2.1 = nRow ++ tn := by
  induction n with
  | zero => intro year p nr g; exact ⟨[], [], by simp [simYears], by simp [simYears]⟩
  | succ m ih =>
    intro year p nr g
    simp only [simYears]
    obtain ⟨tp, tn, h1, h2⟩ := ih (year + 1) (yearStep cfg p nr year g).1
      (yearStep cfg p nr year g).2.1 (yearStep cfg p nr year g).2.2
    refine ⟨stepValue cfg p year g :: tp, stepNpv cfg p nr year g :: tn, ?_, ?_⟩
    · rw [h1, yearStep_fst, List.append_assoc]; rfl
    · rw [h2, yearStep_snd, List.append_assoc]; rfl

/-! ### Per-path state lemmas -/

theorem pathState_zero (cfg : Config) (g0 : Gen) :
    pathState cfg g0 0 = ([cfg.initial_investment], [0], g0) := rfl

theorem pathState_succ (cfg : Config) (g0 : Gen) (k : ℕ) :
    pathState cfg g0 (k + 1) =
      yearStep cfg (pathState cfg g0 k).1 (pathState cfg g0 k).2.1 (k + 1)
        (pathState cfg g0 k).2.2 := by
  show simYears cfg (k + 1) 1 [cfg.initial_investment] [0] g0 = _
  rw [simYears_add cfg k 1 1]
  simp only [simYears]
  rw [Nat.add_comm 1 k]
  rfl

theorem pathState_len (cfg : Config) (g0 : Gen) (k : ℕ) :
    (pathState cfg g0 k).1.length = k + 1 ∧
    (pathState cfg g0 k).2.1.length = k + 1 := by
  have h := simYears_len cfg k 1 [cfg.initial_investment] [0] g0
  constructor
  · rw [show (pathState cfg g0 k).1 = (simYears cfg k 1 [cfg.initial_investment] [0] g0).1 from rfl, h.1]
    simp [Nat.add_comm]
  · rw [show (pathState cfg g0 k).2.1 = (simYears cfg k 1 [cfg.initial_investment] [0] g0).2.1 from rfl, h.2]
    simp [Nat.add_comm]

theorem pathState_getD_mono (cfg : Config) (g0 : Gen) {k m j : ℕ}
    (hkm : k ≤ m) (hj : j ≤ k) :
    (pathState cfg g0 m).1.getD j 0 = (pathState cfg g0 k).1.getD j 0 ∧
    (pathState cfg g0 m).2.1.getD j 0 = (pathState cfg g0 k).2.1.getD j 0 := by
  obtain ⟨r, rfl⟩ : ∃ r, m = k + r := ⟨m - k, by omega⟩
  have hsplit : pathState cfg g0 (k + r) =
      simYears cfg r (1 + k) (pathState cfg g0 k).1 (pathState cfg g0 k).2.1
        (pathState cfg g0 k).2.2 := by
    unfold pathState
    exact simYears_add cfg k r 1 [cfg.initial_investment] [0] g0
  obtain ⟨tp, tn, h1, h2⟩ := simYears_append cfg r (1 + k) (pathState cfg g0 k).1
    (pathState cfg g0 k).2.1 (pathState cfg g0 k).2.2
  have hlen := pathState_len cfg g0 k
  constructor
  · rw [hsplit, h1, List.getD_append]
    omega
  · rw [hsplit, h2, List.getD_append]
    omega

example : runSimulation cfgBad ω0 = ([[1000]], [[0]]) := by decide
example : (runSimulation cfgW ω0).1 = [[1000, 1100, 1200]] := by
  norm_num [runSimulation, runChunks, runChunksFuel, simPaths, simPath, simYears,
    yearStep, stepValue, stepNpv, pathReturn, Gen.normal, Gen.next, chunk_size, cfgW, ω0]
example : (runSimulation cfgW ω0).2 = [[0, 1000, 1100]] := by
  norm_num [runSimulation, runChunks, runChunksFuel, simPaths, simPath, simYears,
    yearStep, stepValue, stepNpv, pathReturn, Gen.normal, Gen.next, chunk_size, cfgW, ω0]
example : (runSimulation cfgW3 ω0).1 = [[1000, 1100], [1000, 1100], [1000, 1100]] := by
  norm_num [runSimulation, runChunks, runChunksFuel, simPaths, simPath, simYears,
    yearStep, stepValue, stepNpv, pathReturn, Gen.normal, Gen.next, chunk_size, cfgW3, ω0]

/-! ### Per-path recurrences -/

theorem pathState_succ_fst (cfg : Config) (g0 : Gen) (k : ℕ) :
    (pathState cfg g0 (k + 1)).1 =
      (pathState cfg g0 k).1 ++
        [stepValue cfg (pathState cfg g0 k).1 (k + 1) (pathState cfg g0 k).2.2] := by
  rw [pathState_succ, yearStep_fst]

theorem pathState_succ_snd (cfg : Config) (g0 : Gen) (k : ℕ) :
    (pathState cfg g0 (k + 1)).2.1 =
      (pathState cfg g0 k).2.1 ++
        [stepNpv cfg (pathState cfg g0 k).1 (pathState cfg g0 k).2.1 (k + 1)
          (pathState cfg g0 k).2.2] := by
  rw [pathState_succ, yearStep_snd]

theorem returnAt_eq_pathReturn (cfg : Config) (g0 : Gen) (k : ℕ) :
    returnAt cfg g0 (k + 1) =
      (pathReturn cfg (pathState cfg g0 k).1 (k + 1) (pathState cfg g0 k).2.2).1 := rfl

theorem pathState_getD_new (cfg : Config) (g0 : Gen) (k : ℕ) :
    (pathState cfg g0 (k + 1)).1.getD (k + 1) 0 =
      stepValue cfg (pathState cfg g0 k).1 (k + 1) (pathState cfg g0 k).2.2 ∧
    (pathState cfg g0 (k + 1)).2.1.getD (k + 1) 0 =
      stepNpv cfg (pathState cfg g0 k).1 (pathState cfg g0 k).2.1 (k + 1)
        (pathState cfg g0 k).2.2 := by
  have hlen := pathState_len cfg g0 k
  constructor
  · rw [pathState_succ_fst, List.getD_append_right _ _ _ _ (by omega), hlen.1]
    simp
  · rw [pathState_succ_snd, List.getD_append_right _ _ _ _ (by omega), hlen.2]
    simp

theorem simPath_value_rec (cfg : Config) (g0 : Gen) {y : ℕ}
    (hy1 : 1 ≤ y) (hy2 : y ≤ cfg.years) :
    (simPath cfg g0).1.getD y 0 =
      ((simPath cfg g0).1.getD (y - 1) 0 + cfg.annual_contribution) *
        (1 + returnAt cfg g0 y) := by
  obtain ⟨k, rfl⟩ : ∃ k, y = k + 1 := ⟨y - 1, by omega⟩
  have hfull : simPath cfg g0 = pathState cfg g0 cfg.years := rfl
  have htop := (pathState_getD_mono cfg g0 (show k + 1 ≤ cfg.years by omega)
    (le_refl (k + 1))).1
  have hprev := (pathState_getD_mono cfg g0 (show k ≤ cfg.years by omega)
    (le_refl k)).1
  simp only [Nat.add_sub_cancel]
  rw [hfull, htop, hprev, (pathState_getD_new cfg g0 k).1, stepValue,
    returnAt_eq_pathReturn]
  simp

theorem simPath_value_zero (cfg : Config) (g0 : Gen) :
    (simPath cfg g0).1.getD 0 0 = cfg.initial_investment := by
  have h := (pathState_getD_mono cfg g0 (Nat.zero_le cfg.years) (le_refl 0)).1
  rw [show simPath cfg g0 = pathState cfg g0 cfg.years from rfl, h, pathState_zero]
  rfl

theorem simPath_npv_zero (cfg : Config) (g0 : Gen) :
    (simPath cfg g0).2.1.getD 0 0 = 0 := by
  have h := (pathState_getD_mono cfg g0 (Nat.zero_le cfg.years) (le_refl 0)).2
  rw [show simPath cfg g0 = pathState cfg g0 cfg.years from rfl, h, pathState_zero]
  rfl

theorem simPath_npv_one (cfg : Config) (g0 : Gen) (hy : 1 ≤ cfg.years) :
    (simPath cfg g0).2.1.getD 1 0 = cfg.initial_investment := by
  have h := (pathState_getD_mono cfg g0 hy (le_refl 1)).2
  rw [show simPath cfg g0 = pathState cfg g0 cfg.years from rfl, h,
    show (1 : ℕ) = 0 + 1 from rfl, (pathState_getD_new cfg g0 0).2, stepNpv]
  simp

theorem simPath_npv_rec (cfg : Config) (g0 : Gen) {y : ℕ}
    (hy1 : 2 ≤ y) (hy2 : y ≤ cfg.years) :
    (simPath cfg g0).2.1.getD y 0 =
      (simPath cfg g0).2.1.getD (y - 1) 0
        + cfg.annual_contribution / ((1 + cfg.discount_rate) ^ y)
        + ((simPath cfg g0).1.getD y 0 - (simPath cfg g0).1.getD (y - 1) 0
            - cfg.annual_contribution) / ((1 + cfg.discount_rate) ^ y) := by
  obtain ⟨k, rfl⟩ : ∃ k, y = k + 1 := ⟨y - 1, by omega⟩
  have hfull : simPath cfg g0 = pathState cfg g0 cfg.years := rfl
  have htopN := (pathState_getD_mono cfg g0 (show k + 1 ≤ cfg.years by omega)
    (le_refl (k + 1))).2
  have hprevN := (pathState_getD_mono cfg g0 (show k ≤ cfg.years by omega)
    (le_refl k)).2
  have htopP := (pathState_getD_mono cfg g0 (show k + 1 ≤ cfg.years by omega)
    (le_refl (k + 1))).1
  have hprevP := (pathState_getD_mono cfg g0 (show k ≤ cfg.years by omega)
    (le_refl k)).1
  simp only [Nat.add_sub_cancel]
  rw [hfull, htopN, hprevN, htopP, hprevP, (pathState_getD_new cfg g0 k).2,
    (pathState_getD_new cfg g0 k).1, stepNpv]
  have hk1 : ¬ (k + 1 = 1) := by omega
  rw [if_neg hk1]
  simp

/-! ### Driver lemmas -/

theorem simPaths_getD (cfg : Config) :
    ∀ (n : ℕ) (g : Gen) (i : ℕ), i < n →
      (simPaths cfg n g).1.getD i [] = (simPath cfg (genAfterPaths cfg g i)).1 ∧
      (simPaths cfg n g).2.1.getD i [] = (simPath cfg (genAfterPaths cfg g i)).2.1 := by
  intro n
  induction n with
  | zero => intro g i h; omega
  | succ m ih =>
    intro g i hi
    cases i with
    | zero =>
      simp only [simPaths, genAfterPaths]
      exact ⟨List.getD_cons_zero, List.getD_cons_zero⟩
    | succ j =>
      simp only [simPaths, genAfterPaths, List.getD_cons_succ]
      exact ih (simPath cfg g).2.2 j (by omega)

theorem simPaths_len (cfg : Config) :
    ∀ (n : ℕ) (g : Gen),
      (simPaths cfg n g).1.length = n ∧ (simPaths cfg n g).2.1.length = n := by
  intro n
  induction n with
  | zero => intro g; simp [simPaths]
  | succ m ih =>
    intro g
    simp only [simPaths, List.length_cons]
    exact ⟨by rw [(ih _).1], by rw [(ih _).2]⟩

theorem simPath_row_len (cfg : Config) (g0 : Gen) :
    (simPath cfg g0).1.length = cfg.years + 1 ∧
    (simPath cfg g0).2.1.length = cfg.years + 1 := by
  have h := simYears_len cfg cfg.years 1 [cfg.initial_investment] [0] g0
  constructor
  · rw [show (simPath cfg g0).1 =
      (simYears cfg cfg.years 1 [cfg.initial_investment] [0] g0).1 from rfl, h.1]
    simp [Nat.add_comm]
  · rw [show (simPath cfg g0).2.1 =
      (simYears cfg cfg.years 1 [cfg.initial_investment] [0] g0).2.1 from rfl, h.2]
    simp [Nat.add_comm]

theorem simPaths_mem_len (cfg : Config) :
    ∀ (n : ℕ) (g : Gen),
      (∀ r ∈ (simPaths cfg n g).1, r.length = cfg.years + 1) ∧
      (∀ r ∈ (simPaths cfg n g).2.1, r.length = cfg.years + 1) := by
  intro n
  induction n with
  | zero => intro g; simp [simPaths]
  | succ m ih =>
    intro g
    simp only [simPaths, List.mem_cons]
    constructor
    · rintro r (rfl | hr)
      · exact (simPath_row_len cfg g).1
      · exact (ih _).1 r hr
    · rintro r (rfl | hr)
      · exact (simPath_row_len cfg g).2
      · exact (ih _).2 r hr

theorem simPaths_gen (cfg : Config) :
    ∀ (n : ℕ) (g : Gen), (simPaths cfg n g).2.2 = genAfterPaths cfg g n := by
  intro n
  induction n with
  | zero => intro g; rfl
  | succ m ih =>
    intro g
    simp only [simPaths, genAfterPaths]
    exact ih (simPath cfg g).2.2

theorem simPaths_add (cfg : Config) (a : ℕ) :
    ∀ (b : ℕ) (g : Gen),
      simPaths cfg (a + b) g =
        ((simPaths cfg a g).1 ++ (simPaths cfg b (simPaths cfg a g).2.2).1,
         (simPaths cfg a g).2.1 ++ (simPaths cfg b (simPaths cfg a g).2.2).2.1,
         (simPaths cfg b (simPaths cfg a g).2.2).2.2) := by
  induction a with
  | zero => intro b g; simp [simPaths]
  | succ m ih =>
    intro b g
    have h1 : m + 1 + b = (m + b) + 1 := by omega
    rw [h1]
    simp only [simPaths]
    rw [ih]
    simp

theorem runChunksFuel_eq (cfg : Config) :
    ∀ (fuel remaining : ℕ) (g : Gen), remaining ≤ fuel →
      runChunksFuel cfg fuel remaining g = simPaths cfg remaining g := by
  intro fuel
  induction fuel with
  | zero =>
    intro remaining g h
    have : remaining = 0 := by omega
    subst this
    rfl
  | succ f ih =>
    intro remaining g h
    by_cases h0 : remaining = 0
    · subst h0; rfl
    · have hc1 : 1 ≤ min chunk_size remaining := by
        simp [chunk_size]; omega
      have hcr : min chunk_size remaining ≤ remaining := Nat.min_le_right _ _
      have hsplit : remaining = min chunk_size remaining +
          (remaining - min chunk_size remaining) := by omega
      simp only [runChunksFuel, if_neg h0]
      rw [ih (remaining - min chunk_size remaining) _ (by omega)]
      conv_rhs => rw [hsplit]
      rw [simPaths_add]

theorem runChunks_eq (cfg : Config) (n : ℕ) (g : Gen) :
    runChunks cfg n g = simPaths cfg n g :=
  runChunksFuel_eq cfg n n g (le_refl n)

/-! ### Bridges from the engine output to per-path facts -/

theorem portfolioRow_eq (cfg : Config) (ω : ℕ → ℚ) (i : ℕ)
    (hi : i < cfg.simulations) :
    portfolioRow cfg ω i = (simPath cfg (genAfterPaths cfg ⟨ω, 0⟩ i)).1 := by
  show (runChunks cfg cfg.simulations ⟨ω, 0⟩).1.getD i [] = _
  rw [runChunks_eq]
  exact (simPaths_getD cfg cfg.simulations ⟨ω, 0⟩ i hi).1

theorem npvRow_eq (cfg : Config) (ω : ℕ → ℚ) (i : ℕ)
    (hi : i < cfg.simulations) :
    npvRow cfg ω i = (simPath cfg (genAfterPaths cfg ⟨ω, 0⟩ i)).2.1 := by
  show (runChunks cfg cfg.simulations ⟨ω, 0⟩).2.1.getD i [] = _
  rw [runChunks_eq]
  exact (simPaths_getD cfg cfg.simulations ⟨ω, 0⟩ i hi).2

theorem runSimulation_shape (cfg : Config) (ω : ℕ → ℚ) :
    (runSimulation cfg ω).1.length = cfg.simulations ∧
    (runSimulation cfg ω).2.length = cfg.simulations ∧
    (∀ r ∈ (runSimulation cfg ω).1, r.length = cfg.years + 1) ∧
    (∀ r ∈ (runSimulation cfg ω).2, r.length = cfg.years + 1) := by
  have h1 : (runSimulation cfg ω).1 = (simPaths cfg cfg.simulations ⟨ω, 0⟩).1 := by
    show (runChunks cfg cfg.simulations ⟨ω, 0⟩).1 = _
    rw [runChunks_eq]
  have h2 : (runSimulation cfg ω).2 = (simPaths cfg cfg.simulations ⟨ω, 0⟩).2.1 := by
    show (runChunks cfg cfg.simulations ⟨ω, 0⟩).2.1 = _
    rw [runChunks_eq]
  refine ⟨?_, ?_, ?_, ?_⟩
  · rw [h1]; exact (simPaths_len cfg cfg.simulations ⟨ω, 0⟩).1
  · rw [h2]; exact (simPaths_len cfg cfg.simulations ⟨ω, 0⟩).2
  · rw [h1]; exact (simPaths_mem_len cfg cfg.simulations ⟨ω, 0⟩).1
  · rw [h2]; exact (simPaths_mem_len cfg cfg.simulations ⟨ω, 0⟩).2

/-! ### Generator consumption -/

theorem pathReturn_omega (cfg : Config) (pRow : List ℚ) (year : ℕ) (g : Gen) :
    (pathReturn cfg pRow year g).2.ω = g.ω := by
  unfold pathReturn Gen.normal Gen.next
  by_cases h : year = 1
  · rw [if_pos h]
  · rw [if_neg h]
    split <;> split <;> rfl

theorem pathReturn_pos (cfg : Config) (pRow : List ℚ) (year : ℕ) (g : Gen) :
    (pathReturn cfg pRow year g).2.pos =
      g.pos + (if year = 1 then 1 else 2) := by
  unfold pathReturn Gen.normal Gen.next
  by_cases h : year = 1
  · rw [if_pos h, if_pos h]
  · rw [if_neg h, if_neg h]
    split <;> split <;> rfl

theorem simYears_pos (cfg : Config) :
    ∀ (n year : ℕ) (pRow nRow : List ℚ) (g : Gen), 2 ≤ year →
      (simYears cfg n year pRow nRow g).2.2.pos = g.pos + 2 * n ∧
      (simYears cfg n year pRow nRow g).2.2.ω = g.ω := by
  intro n
  induction n with
  | zero => intro year p nr g hy; simp [simYears]
  | succ m ih =>
    intro year p nr g hy
    simp only [simYears]
    have h := ih (year + 1) (yearStep cfg p nr year g).1
      (yearStep cfg p nr year g).2.1 (yearStep cfg p nr year g).2.2 (by omega)
    rw [h.1, h.2, yearStep_gen, pathReturn_pos, pathReturn_omega]
    rw [if_neg (by omega : ¬ (year = 1))]
    exact ⟨by omega, rfl⟩

theorem simPath_pos (cfg : Config) (g0 : Gen) (hy : 1 ≤ cfg.years) :
    (simPath cfg g0).2.2.pos = g0.pos + (2 * cfg.years - 1) ∧
    (simPath cfg g0).2.2.ω = g0.ω := by
  have hsplit : cfg.years = 1 + (cfg.years - 1) := by omega
  show (simYears cfg cfg.years 1 [cfg.initial_investment] [0] g0).2.2.pos = _ ∧
    (simYears cfg cfg.years 1 [cfg.initial_investment] [0] g0).2.2.ω = _
  rw [hsplit, simYears_add cfg 1 (cfg.years - 1) 1]
  have h1 := simYears_pos cfg (cfg.years - 1) (1 + 1)
    (simYears cfg 1 1 [cfg.initial_investment] [0] g0).1
    (simYears cfg 1 1 [cfg.initial_investment] [0] g0).2.1
    (simYears cfg 1 1 [cfg.initial_investment] [0] g0).2.2 (by omega)
  rw [h1.1, h1.2]
  have h2 : (simYears cfg 1 1 [cfg.initial_investment] [0] g0).2.2 =
      (pathReturn cfg [cfg.initial_investment] 1 g0).2 := rfl
  rw [h2, pathReturn_pos, pathReturn_omega, if_pos rfl]
  exact ⟨by omega, rfl⟩

theorem genAfterPaths_pos (cfg : Config) (hy : 1 ≤ cfg.years) :
    ∀ (i : ℕ) (g : Gen),
      (genAfterPaths cfg g i).pos = g.pos + i * (2 * cfg.years - 1) ∧
      (genAfterPaths cfg g i).ω = g.ω := by
  intro i
  induction i with
  | zero => intro g; simp [genAfterPaths]
  | succ m ih =>
    intro g
    simp only [genAfterPaths]
    have h := ih (simPath cfg g).2.2
    have hp := simPath_pos cfg g hy
    rw [h.1, h.2, hp.1, hp.2]
    refine ⟨?_, rfl⟩
    generalize 2 * cfg.years - 1 = t
    ring

/-! ### Regime branch structure and degenerate draws -/

theorem returnAt_one (cfg : Config) (g0 : Gen) :
    returnAt cfg g0 1 = (Gen.normal g0 cfg.average_return cfg.std_dev).1 := by
  show (pathReturn cfg (pathState cfg g0 0).1 1 (pathState cfg g0 0).2.2).1 = _
  rw [pathState_zero]
  unfold pathReturn
  rw [if_pos rfl]

theorem returnAt_branch (cfg : Config) (g0 : Gen) (k : ℕ) (hk : 1 ≤ k) :
    returnAt cfg g0 (k + 1) =
      if (pathState cfg g0 k).1.getD k 0 > (pathState cfg g0 k).1.getD (k - 1) 0 then
        (if (Gen.next (pathState cfg g0 k).2.2).1 < 7/10 then
          (Gen.normal (Gen.next (pathState cfg g0 k).2.2).2
            cfg.average_return cfg.std_dev).1
         else
          (Gen.normal (Gen.next (pathState cfg g0 k).2.2).2
            (-cfg.average_return) cfg.std_dev).1)
      else
        (if (Gen.next (pathState cfg g0 k).2.2).1 < 7/10 then
          (Gen.normal (Gen.next (pathState cfg g0 k).2.2).2
            (-cfg.average_return) cfg.std_dev).1
         else
          (Gen.normal (Gen.next (pathState cfg g0 k).2.2).2
            cfg.average_return cfg.std_dev).1) := by
  rw [returnAt_eq_pathReturn]
  unfold pathReturn
  rw [if_neg (by omega : ¬ (k + 1 = 1))]
  simp only [Nat.add_sub_cancel, (by omega : k + 1 - 2 = k - 1)]
  split <;> split <;> rfl

theorem pathReturn_degenerate (cfg : Config) (ha : cfg.average_return = 0)
    (hs : cfg.std_dev = 0) (pRow : List ℚ) (year : ℕ) (g : Gen) :
    (pathReturn cfg pRow year g).1 = 0 := by
  unfold pathReturn Gen.normal Gen.next
  by_cases h : year = 1
  · rw [if_pos h]; simp [ha, hs]
  · rw [if_neg h]
    split <;> split <;> simp [ha, hs]

/-! ### The claims -/

/-- C1: for every simulation path `i` and every year `1 ≤ y ≤ years`, the
portfolio value satisfies
`value[i][y] = (value[i][y-1] + annual_contribution) * (1 + return[i][y])`,
where `return[i][y]` is that year's drawn return, and
`value[i][0] = initial_investment` for every simulation path. -/
theorem C1_portfolio_recurrence (cfg : Config) (ω : ℕ → ℚ) (i y : ℕ)
    (hi : i < cfg.simulations) (hy1 : 1 ≤ y) (hy2 : y ≤ cfg.years) :
    (portfolioRow cfg ω i).getD 0 0 = cfg.initial_investment ∧
    (portfolioRow cfg ω i).getD y 0 =
      ((portfolioRow cfg ω i).getD (y - 1) 0 + cfg.annual_contribution) *
        (1 + returnAt cfg (genAfterPaths cfg ⟨ω, 0⟩ i) y) := by
  rw [portfolioRow_eq cfg ω i hi]
  exact ⟨simPath_value_zero cfg _, simPath_value_rec cfg _ hy1 hy2⟩

/-- C1 witness at the concrete configuration `cfgW`, path 0, year 1. -/
theorem C1_portfolio_recurrence_witness :
    0 < cfgW.simulations ∧ (1 : ℕ) ≤ 1 ∧ 1 ≤ cfgW.years ∧
    ((portfolioRow cfgW ω0 0).getD 0 0 = cfgW.initial_investment ∧
     (portfolioRow cfgW ω0 0).getD 1 0 =
       ((portfolioRow cfgW ω0 0).getD (1 - 1) 0 + cfgW.annual_contribution) *
         (1 + returnAt cfgW (genAfterPaths cfgW ⟨ω0, 0⟩ 0) 1)) :=
  ⟨by decide, by decide, by decide,
   C1_portfolio_recurrence cfgW ω0 0 1 (by decide) (by decide) (by decide)⟩

/-- C2: for every simulation path `i` of a run with `years ≥ 1`:
`npv[i][0] = 0`; `npv[i][1] = initial_investment` regardless of
`discount_rate` (both base cases hold in every such run, a `years = 1` run
included); and for every year with `2 ≤ y ≤ years`,
`npv[i][y] = npv[i][y-1] + annual_contribution/(1+discount_rate)^y
+ (value[i][y] - value[i][y-1] - annual_contribution)/(1+discount_rate)^y`. -/
theorem C2_npv_recurrence (cfg : Config) (ω : ℕ → ℚ) (i y : ℕ)
    (hi : i < cfg.simulations) (hy0 : 1 ≤ cfg.years) :
    (npvRow cfg ω i).getD 0 0 = 0 ∧
    (npvRow cfg ω i).getD 1 0 = cfg.initial_investment ∧
    (2 ≤ y → y ≤ cfg.years →
      (npvRow cfg ω i).getD y 0 =
        (npvRow cfg ω i).getD (y - 1) 0
          + cfg.annual_contribution / ((1 + cfg.discount_rate) ^ y)
          + ((portfolioRow cfg ω i).getD y 0 - (portfolioRow cfg ω i).getD (y - 1) 0
              - cfg.annual_contribution) / ((1 + cfg.discount_rate) ^ y)) := by
  rw [npvRow_eq cfg ω i hi, portfolioRow_eq cfg ω i hi]
  exact ⟨simPath_npv_zero cfg _, simPath_npv_one cfg _ hy0,
    fun hy1 hy2 => simPath_npv_rec cfg _ hy1 hy2⟩

/-- C2 witness at the concrete configuration `cfgW`, path 0, year 2. -/
theorem C2_npv_recurrence_witness :
    0 < cfgW.simulations ∧ 1 ≤ cfgW.years ∧
    ((npvRow cfgW ω0 0).getD 0 0 = 0 ∧
     (npvRow cfgW ω0 0).getD 1 0 = cfgW.initial_investment ∧
     (npvRow cfgW ω0 0).getD 2 0 =
       (npvRow cfgW ω0 0).getD (2 - 1) 0
         + cfgW.annual_contribution / ((1 + cfgW.discount_rate) ^ (2 : ℕ))
         + ((portfolioRow cfgW ω0 0).getD 2 0 - (portfolioRow cfgW ω0 0).getD (2 - 1) 0
             - cfgW.annual_contribution) / ((1 + cfgW.discount_rate) ^ (2 : ℕ))) :=
  ⟨by decide, by decide,
   (C2_npv_recurrence cfgW ω0 0 2 (by decide) (by decide)).1,
   (C2_npv_recurrence cfgW ω0 0 2 (by decide) (by decide)).2.1,
   (C2_npv_recurrence cfgW ω0 0 2 (by decide) (by decide)).2.2 (by decide) (by decide)⟩

/-- C3: for every simulation path, the year-1 return is drawn as
`next_normal(average_return, std_dev)` unconditionally (asserted for every
run, a `years = 1` run included); and for every year `2 ≤ y ≤ years` the
branch is chosen by the strict comparison `value[y-1] > value[y-2]` (a tie
falls into the down branch): in the up branch, the draw is
`next_normal(average_return, std_dev)` when the uniform is below `0.7` and
`next_normal(-average_return, std_dev)` otherwise; in the down branch the
two cases are swapped. -/
theorem C3_regime_model (cfg : Config) (ω : ℕ → ℚ) (i y : ℕ)
    (hi : i < cfg.simulations) :
    returnAt cfg (genAfterPaths cfg ⟨ω, 0⟩ i) 1 =
      (Gen.normal (genAfterPaths cfg ⟨ω, 0⟩ i) cfg.average_return cfg.std_dev).1 ∧
    (2 ≤ y → y ≤ cfg.years →
      returnAt cfg (genAfterPaths cfg ⟨ω, 0⟩ i) y =
        (if (portfolioRow cfg ω i).getD (y - 1) 0 >
            (portfolioRow cfg ω i).getD (y - 2) 0 then
          (if (Gen.next (pathState cfg (genAfterPaths cfg ⟨ω, 0⟩ i) (y - 1)).2.2).1
              < 7/10 then
            (Gen.normal
              (Gen.next (pathState cfg (genAfterPaths cfg ⟨ω, 0⟩ i) (y - 1)).2.2).2
              cfg.average_return cfg.std_dev).1
           else
            (Gen.normal
              (Gen.next (pathState cfg (genAfterPaths cfg ⟨ω, 0⟩ i) (y - 1)).2.2).2
              (-cfg.average_return) cfg.std_dev).1)
        else
          (if (Gen.next (pathState cfg (genAfterPaths cfg ⟨ω, 0⟩ i) (y - 1)).2.2).1
              < 7/10 then
            (Gen.normal
              (Gen.next (pathState cfg (genAfterPaths cfg ⟨ω, 0⟩ i) (y - 1)).2.2).2
              (-cfg.average_return) cfg.std_dev).1
           else
            (Gen.normal
              (Gen.next (pathState cfg (genAfterPaths cfg ⟨ω, 0⟩ i) (y - 1)).2.2).2
              cfg.average_return cfg.std_dev).1)) ∧
      ((portfolioRow cfg ω i).getD (y - 1) 0 =
          (portfolioRow cfg ω i).getD (y - 2) 0 →
        returnAt cfg (genAfterPaths cfg ⟨ω, 0⟩ i) y =
          (if (Gen.next (pathState cfg (genAfterPaths cfg ⟨ω, 0⟩ i) (y - 1)).2.2).1
              < 7/10 then
            (Gen.normal
              (Gen.next (pathState cfg (genAfterPaths cfg ⟨ω, 0⟩ i) (y - 1)).2.2).2
              (-cfg.average_return) cfg.std_dev).1
           else
            (Gen.normal
              (Gen.next (pathState cfg (genAfterPaths cfg ⟨ω, 0⟩ i) (y - 1)).2.2).2
              cfg.average_return cfg.std_dev).1))) := by
  refine ⟨returnAt_one cfg _, ?_⟩
  intro hy1 hy2
  obtain ⟨k, rfl⟩ : ∃ k, y = k + 1 := ⟨y - 1, by omega⟩
  have hk : 1 ≤ k := by omega
  have hrow := portfolioRow_eq cfg ω i hi
  have hA : (portfolioRow cfg ω i).getD (k + 1 - 1) 0 =
      (pathState cfg (genAfterPaths cfg ⟨ω, 0⟩ i) k).1.getD k 0 := by
    rw [hrow]
    simp only [Nat.add_sub_cancel]
    exact (pathState_getD_mono cfg _ (show k ≤ cfg.years by omega) (le_refl k)).1
  have hB : (portfolioRow cfg ω i).getD (k + 1 - 2) 0 =
      (pathState cfg (genAfterPaths cfg ⟨ω, 0⟩ i) k).1.getD (k - 1) 0 := by
    rw [hrow]
    simp only [(by omega : k + 1 - 2 = k - 1)]
    exact (pathState_getD_mono cfg _ (show k ≤ cfg.years by omega)
      (by omega : k - 1 ≤ k)).1
  refine ⟨?_, ?_⟩
  · simp only [Nat.add_sub_cancel]
    rw [returnAt_branch cfg _ k hk]
    have hA2 := hA
    simp only [Nat.add_sub_cancel] at hA2
    rw [hA2, hB]
  · intro hEq
    simp only [Nat.add_sub_cancel]
    rw [returnAt_branch cfg _ k hk]
    rw [hA, hB] at hEq
    rw [if_neg (by rw [hEq]; exact lt_irrefl _)]

/-- C3 witness at the concrete configuration `cfgW`, path 0: the year-1 draw
is the unconditional normal. -/
theorem C3_regime_model_witness :
    0 < cfgW.simulations ∧
    (returnAt cfgW (genAfterPaths cfgW ⟨ω0, 0⟩ 0) 1 =
      (Gen.normal (genAfterPaths cfgW ⟨ω0, 0⟩ 0) cfgW.average_return
        cfgW.std_dev).1) :=
  ⟨by decide, (C3_regime_model cfgW ω0 0 2 (by decide)).1⟩

/-- C4: determinism — for a fixed Configuration (seed included), two
independent runs of the engine produce identical `portfolio_paths` and
`npv_paths`.  In the embedding the engine is a pure function of the
configuration once the seed fixes the raw draw stream, so any two runs on
equal configurations coincide exactly. -/
theorem C4_determinism (seedStream : ℕ → ℕ → ℚ) (cfg1 cfg2 : Config)
    (h : cfg1 = cfg2) :
    runSeeded seedStream cfg1 = runSeeded seedStream cfg2 := by
  rw [h]

/-- C4 witness: two runs at the concrete configuration `cfgW` agree. -/
theorem C4_determinism_witness :
    cfgW = cfgW ∧ runSeeded (fun _ _ => 0) cfgW = runSeeded (fun _ _ => 0) cfgW :=
  ⟨rfl, C4_determinism (fun _ _ => 0) cfgW cfgW rfl⟩

/-- C5: for every valid Configuration (`simulations ≥ 1`, `years ≥ 1`), both
output matrices have exactly `simulations` rows and `years + 1` columns,
including when `simulations` is not a multiple of the internal chunk size
of 100. -/
theorem C5_shape (cfg : Config) (ω : ℕ → ℚ)
    (hs : 1 ≤ cfg.simulations) (hy : 1 ≤ cfg.years) :
    chunk_size = 100 ∧
    (runSimulation cfg ω).1.length = cfg.simulations ∧
    (runSimulation cfg ω).2.length = cfg.simulations ∧
    (∀ r ∈ (runSimulation cfg ω).1, r.length = cfg.years + 1) ∧
    (∀ r ∈ (runSimulation cfg ω).2, r.length = cfg.years + 1) :=
  ⟨rfl, runSimulation_shape cfg ω⟩

/-- C5 witness at `cfgW3`, whose 3 simulations are not a multiple of the
chunk size 100. -/
theorem C5_shape_witness :
    1 ≤ cfgW3.simulations ∧ 1 ≤ cfgW3.years ∧
    (chunk_size = 100 ∧
     (runSimulation cfgW3 ω0).1.length = cfgW3.simulations ∧
     (runSimulation cfgW3 ω0).2.length = cfgW3.simulations ∧
     (∀ r ∈ (runSimulation cfgW3 ω0).1, r.length = cfgW3.years + 1) ∧
     (∀ r ∈ (runSimulation cfgW3 ω0).2, r.length = cfgW3.years + 1)) :=
  ⟨by decide, by decide, C5_shape cfgW3 ω0 (by decide) (by decide)⟩

/-- C7: with `average_return = 0` and `std_dev = 0`, every return draw is
exactly 0 regardless of which regime branch is taken, so every year's value
satisfies `value[y] = value[y-1] + annual_contribution` exactly. -/
theorem C7_zero_volatility_floor (cfg : Config) (ω : ℕ → ℚ) (i y : ℕ)
    (ha : cfg.average_return = 0) (hs : cfg.std_dev = 0)
    (hi : i < cfg.simulations) (hy1 : 1 ≤ y) (hy2 : y ≤ cfg.years) :
    returnAt cfg (genAfterPaths cfg ⟨ω, 0⟩ i) y = 0 ∧
    (portfolioRow cfg ω i).getD y 0 =
      (portfolioRow cfg ω i).getD (y - 1) 0 + cfg.annual_contribution := by
  have hr : returnAt cfg (genAfterPaths cfg ⟨ω, 0⟩ i) y = 0 := by
    obtain ⟨k, rfl⟩ : ∃ k, y = k + 1 := ⟨y - 1, by omega⟩
    rw [returnAt_eq_pathReturn]
    exact pathReturn_degenerate cfg ha hs _ _ _
  refine ⟨hr, ?_⟩
  rw [portfolioRow_eq cfg ω i hi, simPath_value_rec cfg _ hy1 hy2, hr]
  ring

/-- C7 witness at the concrete configuration `cfgW` (zero mean, zero
volatility), path 0, year 1. -/
theorem C7_zero_volatility_floor_witness :
    cfgW.average_return = 0 ∧ cfgW.std_dev = 0 ∧
    0 < cfgW.simulations ∧ (1 : ℕ) ≤ 1 ∧ 1 ≤ cfgW.years ∧
    (returnAt cfgW (genAfterPaths cfgW ⟨ω0, 0⟩ 0) 1 = 0 ∧
     (portfolioRow cfgW ω0 0).getD 1 0 =
       (portfolioRow cfgW ω0 0).getD (1 - 1) 0 + cfgW.annual_contribution) :=
  ⟨by decide, by decide, by decide, by decide, by decide,
   C7_zero_volatility_floor cfgW ω0 0 1 (by decide) (by decide) (by decide)
     (by decide) (by decide)⟩

/-- C8: processing simulations in fixed-size chunks of 100 produces exactly
the same matrices as the unchunked driver that runs the simulation loop over
all paths directly; the chunked and unchunked drivers agree at every
simulation count and from every generator state (final generator state
included), so chunking alters neither any output value nor the draw order. -/
theorem C8_chunking_no_op (cfg : Config) (ω : ℕ → ℚ) :
    runSimulation cfg ω = runUnchunked cfg ω ∧
    ∀ (n : ℕ) (g : Gen), runChunks cfg n g = simPaths cfg n g := by
  constructor
  · show ((runChunks cfg cfg.simulations ⟨ω, 0⟩).1,
      (runChunks cfg cfg.simulations ⟨ω, 0⟩).2.1) = _
    rw [runChunks_eq]
    rfl
  · exact runChunks_eq cfg

/-- C9: in exact arithmetic the two-term NPV update collapses: for every
path and every year `2 ≤ y ≤ years`,
`npv[y] - npv[y-1] = (value[y] - value[y-1]) / (1+discount_rate)^y`. -/
theorem C9_npv_collapse (cfg : Config) (ω : ℕ → ℚ) (i y : ℕ)
    (hi : i < cfg.simulations) (hy1 : 2 ≤ y) (hy2 : y ≤ cfg.years) :
    (npvRow cfg ω i).getD y 0 - (npvRow cfg ω i).getD (y - 1) 0 =
      ((portfolioRow cfg ω i).getD y 0 - (portfolioRow cfg ω i).getD (y - 1) 0)
        / ((1 + cfg.discount_rate) ^ y) := by
  rw [npvRow_eq cfg ω i hi, portfolioRow_eq cfg ω i hi,
    simPath_npv_rec cfg _ hy1 hy2]
  have key : ∀ (X c vt vp d : ℚ),
      X + c / d + (vt - vp - c) / d - X = (vt - vp) / d := by
    intro X c vt vp d
    have h1 : c / d + (vt - vp - c) / d = (vt - vp) / d := by
      rw [div_add_div_same]
      congr 1
      ring
    calc X + c / d + (vt - vp - c) / d - X
        = c / d + (vt - vp - c) / d := by ring
      _ = (vt - vp) / d := h1
  exact key _ _ _ _ _

/-- C9 witness at the concrete configuration `cfgW`, path 0, year 2. -/
theorem C9_npv_collapse_witness :
    0 < cfgW.simulations ∧ (2 : ℕ) ≤ 2 ∧ 2 ≤ cfgW.years ∧
    ((npvRow cfgW ω0 0).getD 2 0 - (npvRow cfgW ω0 0).getD (2 - 1) 0 =
      ((portfolioRow cfgW ω0 0).getD 2 0 - (portfolioRow cfgW ω0 0).getD (2 - 1) 0)
        / ((1 + cfgW.discount_rate) ^ (2 : ℕ))) :=
  ⟨by decide, by decide, by decide,
   C9_npv_collapse cfgW ω0 0 2 (by decide) (by decide) (by decide)⟩

/-- C10: per path, year 1 consumes exactly one generator draw (the normal;
no uniform), and every later year consumes exactly two draws (the uniform
coin flip, then the one normal of the chosen branch — the unchosen branch is
never evaluated); consequently the generator position after a full run is
`simulations * (2*years - 1)`, determined solely by `simulations` and
`years`. -/
theorem C10_draw_counts (cfg : Config) (ω : ℕ → ℚ) (g0 : Gen) (k : ℕ)
    (hy : 1 ≤ cfg.years) (hk : 1 ≤ k) :
    (pathState cfg g0 1).2.2.pos = g0.pos + 1 ∧
    (pathState cfg g0 (k + 1)).2.2.pos = (pathState cfg g0 k).2.2.pos + 2 ∧
    (simPath cfg g0).2.2.pos = g0.pos + (2 * cfg.years - 1) ∧
    (runChunks cfg cfg.simulations ⟨ω, 0⟩).2.2.pos =
      cfg.simulations * (2 * cfg.years - 1) := by
  refine ⟨?_, ?_, (simPath_pos cfg g0 hy).1, ?_⟩
  · have h01 := pathState_succ cfg g0 0
    norm_num at h01
    rw [h01, yearStep_gen, pathReturn_pos, if_pos rfl, pathState_zero]
  · rw [pathState_succ, yearStep_gen, pathReturn_pos,
      if_neg (by omega : ¬ (k + 1 = 1))]
  · rw [runChunks_eq, simPaths_gen,
      (genAfterPaths_pos cfg hy cfg.simulations ⟨ω, 0⟩).1]
    simp

/-- C10 witness at the concrete configuration `cfgW`, second year step. -/
theorem C10_draw_counts_witness :
    1 ≤ cfgW.years ∧ (1 : ℕ) ≤ 1 ∧
    ((pathState cfgW ⟨ω0, 0⟩ 1).2.2.pos = (⟨ω0, 0⟩ : Gen).pos + 1 ∧
     (pathState cfgW ⟨ω0, 0⟩ 2).2.2.pos = (pathState cfgW ⟨ω0, 0⟩ 1).2.2.pos + 2 ∧
     (simPath cfgW ⟨ω0, 0⟩).2.2.pos = (⟨ω0, 0⟩ : Gen).pos + (2 * cfgW.years - 1) ∧
     (runChunks cfgW cfgW.simulations ⟨ω0, 0⟩).2.2.pos =
       cfgW.simulations * (2 * cfgW.years - 1)) :=
  ⟨by decide, by decide,
   C10_draw_counts cfgW ω0 ⟨ω0, 0⟩ 1 (by decide) (by decide)⟩
